import Mathlib

/-!
Verification development for the MAPIE example repository.

The repository ships one source file, `examples/plot_homoscedastic_1d_data.py`,
which generates 1-D homoscedastic polynomial data and exercises the external
`MapieRegressor` conformal-prediction estimator with six resampling methods.
The estimator itself is not part of the repository source, so it is modelled
here from the specification's estimator contract (sections 3, 4, 6, 7 of the
spec).  The data-generation code (`f`, `get_homoscedastic_data`) and the
script-level configuration are embedded directly from the Python source.

Numbers are modelled as rationals; machine floats are abstracted to exact
arithmetic.  The numpy global random generator is modelled as an abstract
deterministic stream indexed by a state, threaded explicitly.
-/

/-! ## Embedding of the example script's data generation (from the source) -/

/-- Embedding of `f` from `plot_homoscedastic_1d_data.py`:
`np.stack(5*x + 5*x**4 - 9*x**2)` applied elementwise (for a 1-D array,
`np.stack` returns the array unchanged). -/
def fpoly (x : ℚ) : ℚ := 5 * x + 5 * x ^ 4 - 9 * x ^ 2

/-- Elementwise application of `fpoly`, the vectorised `f` of the script. -/
def fvec (xs : List ℚ) : List ℚ := xs.map fpoly

/-- Embedding of `np.linspace(a, b, n, endpoint=False)`:
`n` equally spaced points starting at `a` with step `(b - a) / n`. -/
def linspace (a b : ℚ) (n : Nat) : List ℚ :=
  (List.range n).map (fun i : Nat => a + (b - a) * (i : ℚ) / (n : ℚ))

/-- Abstract model of the numpy global random generator together with the
scipy normal quantile.  The draws are deterministic functions of the
generator state; `seedState k` is the state right after `np.random.seed(k)`,
`expSample s scale i` the `i`-th draw of `np.random.exponential(scale, n)`
performed in state `s`, `normSample s mu sigma i` the `i`-th draw of
`np.random.normal(mu, sigma, n)`, `nextState s n` the state after `n` draws,
and `q95` the value of `scipy.stats.norm.ppf(0.95)`. -/
structure RNG where
  seedState : Nat → Nat
  expSample : Nat → ℚ → Nat → ℚ
  normSample : Nat → ℚ → ℚ → Nat → ℚ
  nextState : Nat → Nat → Nat
  q95 : ℚ

/-- Result record of `get_homoscedastic_data`:
`(X_train, y_train, X_true, y_true, y_true_sigma)`. -/
structure HomoData where
  X_train : List ℚ
  y_train : List ℚ
  X_true : List ℚ
  y_true : List ℚ
  y_true_sigma : ℚ
  deriving DecidableEq

/-- Embedding of `get_homoscedastic_data` from the script.  `s0` is the state
of the global generator when the function is entered; the function starts
with `np.random.seed(59)`, which replaces it.  The body then draws
`X_train ~ exponential(0.4, n_samples)`, sets
`X_true = linspace(0.001, 1.2, n_test, endpoint=False)`,
`y_train = f(X_train) + normal(0, sigma, n_samples)`, `y_true = f(X_true)`
and `y_true_sigma = ppf(0.95) * sigma`. -/
def get_homoscedastic_data (rng : RNG) (s0 : Nat)
    (n_samples n_test : Nat) (sigma : ℚ) : HomoData :=
  let s1 := rng.seedState 59
  let X_train := (List.range n_samples).map (rng.expSample s1 (2 / 5))
  let s2 := rng.nextState s1 n_samples
  let X_true := linspace (1 / 1000) (6 / 5) n_test
  let noise := (List.range n_samples).map (rng.normSample s2 0 sigma)
  let y_train := List.zipWith (· + ·) (fvec X_train) noise
  let y_true := fvec X_true
  ⟨X_train, y_train, X_true, y_true, rng.q95 * sigma⟩

/-- The script's call site (line 120): `get_homoscedastic_data(n_samples=200,
n_test=200, sigma=0.1)`. -/
def scriptNSamples : Nat := 200

/-- Number of test points actually requested by the script's call site. -/
def scriptNTest : Nat := 200

/-- Noise standard deviation passed by the script (`sigma=0.1`). -/
def scriptSigma : ℚ := 1 / 10

/-- Miscoverage level passed to every `MapieRegressor` in the script
(`alpha=0.05`). -/
def scriptAlpha : ℚ := 1 / 20

/-- The six method strings iterated over by the script (line 131). -/
def scriptMethods : List String :=
  ["jackknife", "jackknife_plus", "jackknife_minmax", "cv", "cv_plus", "cv_minmax"]

/-- The data tuple computed at the top of the script, as a function of the
abstract generator and incoming generator state. -/
def scriptData (rng : RNG) (s0 : Nat) : HomoData :=
  get_homoscedastic_data rng s0 scriptNSamples scriptNTest scriptSigma

/-! ## Spec-modelled estimator

Modelled from the spec: the `MapieRegressor` class (module
`mapie.estimators`) is not part of the repository source; the definitions
below follow the estimator contract in the spec (sections 3, 4.2, 4.3, 4.4,
6 and 7): base-model adapter, leave-one-out / k-fold nonconformity engine,
per-method interval aggregation with linear-interpolation empirical
quantiles, and the fit/predict facade with its error taxonomy. -/

/-- The six recognised resampling methods (spec section 4.4). -/
inductive Method where
  | jackknife
  | jackknife_plus
  | jackknife_minmax
  | cv
  | cv_plus
  | cv_minmax
  deriving DecidableEq

/-- Whether a method belongs to the cross-validation family. -/
def Method.isCV : Method → Bool
  | .cv => true
  | .cv_plus => true
  | .cv_minmax => true
  | _ => false

/-- Parse the user-facing method string (spec: unrecognised strings are an
error). -/
def parseMethod : String → Option Method
  | "jackknife" => some .jackknife
  | "jackknife_plus" => some .jackknife_plus
  | "jackknife_minmax" => some .jackknife_minmax
  | "cv" => some .cv
  | "cv_plus" => some .cv_plus
  | "cv_minmax" => some .cv_minmax
  | _ => none

/-- Error taxonomy of the estimator (spec section 7). -/
inductive MapieError where
  | InvalidInputError
  | InvalidConfigError
  | NotFittedError
  | InvalidMethodError
  | ModelFitError
  deriving DecidableEq

/-- A base regressor: anything exposing deterministic fit/predict, modelled
as a function from the training pairs to a predictor (spec sections 4.1, 6).
Features are one-dimensional as in the example script. -/
def Model : Type := List (ℚ × ℚ) → ℚ → ℚ

/-- Linear interpolation between consecutive values of `v` at real position
`h` (numpy's default `linear` quantile interpolation). -/
def interp (v : Nat → ℚ) (h : ℚ) : ℚ :=
  v (⌊h⌋).toNat
    + (h - ((⌊h⌋).toNat : ℚ)) * (v ((⌊h⌋).toNat + 1) - v (⌊h⌋).toNat)

/-- Access into a list clamped to the last index (out-of-range reads return
the last element; the empty list reads as `0`). -/
def sortedNth (l : List ℚ) (i : Nat) : ℚ := l.getD (min i (l.length - 1)) 0

/-- Empirical quantile with linear interpolation (spec section 4.3's
tie-break/quantile convention): sort the sample, then interpolate at
position `q * (n - 1)`. -/
def quantile (s : List ℚ) (q : ℚ) : ℚ :=
  interp (sortedNth (List.insertionSort (· ≤ ·) s)) (q * ((s.length : ℚ) - 1))

/-- Maximum of a list of rationals (`0` on the empty list). -/
def listMax : List ℚ → ℚ
  | [] => 0
  | a :: t => t.foldl max a

/-- Minimum of a list of rationals (`0` on the empty list). -/
def listMin : List ℚ → ℚ
  | [] => 0
  | a :: t => t.foldl min a

/-- Arithmetic mean of a list of rationals. -/
def mean (l : List ℚ) : ℚ := l.sum / (l.length : ℚ)

/-- Fold sizes of scikit-learn style deterministic k-fold splitting of `n`
points: the first `n % k` folds get `n / k + 1` points, the rest `n / k`
(spec 4.2: deterministic, stable ordering). -/
def foldSizes (n k : Nat) : List Nat :=
  (List.range k).map (fun i => n / k + if i < n % k then 1 else 0)

/-- Contiguous index blocks of the given sizes starting at `start`. -/
def foldsOfSizes : List Nat → Nat → List (List Nat)
  | [], _ => []
  | s :: rest, start => (List.range s).map (· + start) :: foldsOfSizes rest (start + s)

/-- The deterministic k-fold partition of `{0, …, n-1}` used by the cv
family. -/
def foldsCV (n k : Nat) : List (List Nat) := foldsOfSizes (foldSizes n k) 0

/-- The leave-one-out partition used by the jackknife family: `n` singleton
folds. -/
def foldsLOO (n : Nat) : List (List Nat) := (List.range n).map (fun i => [i])

/-- Fold partition chosen by a method: k-fold for the cv family, leave-one-out
for the jackknife family. -/
def methodFolds (meth : Method) (n k : Nat) : List (List Nat) :=
  if meth.isCV then foldsCV n k else foldsLOO n

/-- The training pairs at the given indices (invalid indices are dropped). -/
def selectIdx (T : List (ℚ × ℚ)) (idxs : List Nat) : List (ℚ × ℚ) :=
  idxs.filterMap (fun i => T.get? i)

/-- Indices of `{0, …, n-1}` outside the fold `F`. -/
def complIdx (n : Nat) (F : List Nat) : List Nat :=
  (List.range n).filter (fun i => ¬ F.contains i)

/-- Predictor obtained by fitting the base model on the complement of fold
`F` (spec 4.2). -/
def foldFit (b : Model) (T : List (ℚ × ℚ)) (F : List Nat) : ℚ → ℚ :=
  b (selectIdx T (complIdx T.length F))

/-- For each held-out point of fold `F`: the fold's predictor paired with the
point's nonconformity score `|y - ŷ_fold|` (spec section 3). -/
def foldResiduals (b : Model) (T : List (ℚ × ℚ)) (F : List Nat) :
    List ((ℚ → ℚ) × ℚ) :=
  let g := foldFit b T F
  (selectIdx T F).map (fun p => (g, |p.2 - g p.1|))

/-- State stored by a successful `fit`: the full model's predictor, one
predictor per fold, and for every training point its excluding fold's
predictor together with its nonconformity score. -/
structure FitState where
  muFull : ℚ → ℚ
  foldModels : List (ℚ → ℚ)
  pointPreds : List ((ℚ → ℚ) × ℚ)

/-- Fit the full model and all fold models, collecting nonconformity scores
(spec 4.2/4.4). -/
def fitFolds (b : Model) (T : List (ℚ × ℚ)) (folds : List (List Nat)) :
    FitState :=
  ⟨b T, folds.map (foldFit b T), (folds.map (foldResiduals b T)).flatten⟩

/-- The estimator facade's configuration and state (spec sections 4.4, 6):
base model, method string, miscoverage `alpha`, `n_splits`, `return_pred`,
and the fitted state (absent before `fit`). -/
structure MapieRegressor where
  base : Model
  method : String
  alpha : ℚ
  n_splits : Nat
  return_pred : String
  state : Option FitState

/-- `fit` (spec 4.4): validates the method string, `alpha ∈ (0,1)` and — for
cv methods — `2 ≤ n_splits ≤ n_samples`, then trains the full model and the
fold models and stores the nonconformity state.  Re-fit replaces prior
state. -/
def MapieRegressor.fit (m : MapieRegressor) (T : List (ℚ × ℚ)) :
    Except MapieError MapieRegressor :=
  match parseMethod m.method with
  | none => Except.error MapieError.InvalidMethodError
  | some meth =>
    if 0 < m.alpha ∧ m.alpha < 1 then
      if meth.isCV = true ∧ ¬(2 ≤ m.n_splits ∧ m.n_splits ≤ T.length) then
        Except.error MapieError.InvalidConfigError
      else
        Except.ok (MapieRegressor.mk m.base m.method m.alpha m.n_splits
          m.return_pred
          (some (fitFolds m.base T (methodFolds meth T.length m.n_splits))))
    else Except.error MapieError.InvalidConfigError

/-- Interval aggregation rule per method at a single test point (spec 4.3):
`jackknife`/`cv`: full-model prediction ± the `(1-alpha)` quantile of the
scores; `jackknife_plus`/`cv_plus`: per-point quantiles of
`fold_prediction(x) ∓ residual_i` over the excluded points;
`jackknife_minmax`/`cv_minmax`: `[min fold prediction - max residual,
max fold prediction + max residual]`. -/
def intervalAt (meth : Method) (st : FitState) (alpha : ℚ) (x : ℚ) : ℚ × ℚ :=
  let scores := st.pointPreds.map (fun pr => pr.2)
  match meth with
  | .jackknife | .cv =>
      let q := quantile scores (1 - alpha)
      (st.muFull x - q, st.muFull x + q)
  | .jackknife_plus | .cv_plus =>
      (quantile (st.pointPreds.map (fun pr => pr.1 x - pr.2)) alpha,
       quantile (st.pointPreds.map (fun pr => pr.1 x + pr.2)) (1 - alpha))
  | .jackknife_minmax | .cv_minmax =>
      let preds := st.foldModels.map (fun g => g x)
      (listMin preds - listMax scores, listMax preds + listMax scores)

/-- Point prediction at a test point (spec 4.4): the fold-ensemble mean when
`return_pred = "ensemble"`, the full model's prediction otherwise. -/
def pointAt (st : FitState) (rp : String) (x : ℚ) : ℚ :=
  if rp = "ensemble" then mean (st.foldModels.map (fun g => g x))
  else st.muFull x

/-- One output row `[point, lower, upper]` for a test point (spec 4.4). -/
def predictRow (m : MapieRegressor) (meth : Method) (st : FitState) (x : ℚ) :
    List ℚ :=
  [pointAt st m.return_pred x,
   (intervalAt meth st m.alpha x).1,
   (intervalAt meth st m.alpha x).2]

/-- `predict` (spec 4.4): requires prior `fit` (`NotFittedError` otherwise);
returns one `[point, lower, upper]` row per test point. -/
def MapieRegressor.predict (m : MapieRegressor) (X : List ℚ) :
    Except MapieError (List (List ℚ)) :=
  match m.state with
  | none => Except.error MapieError.NotFittedError
  | some st =>
    match parseMethod m.method with
    | none => Except.error MapieError.InvalidMethodError
    | some meth => Except.ok (X.map (predictRow m meth st))

/-- `predict` seen as a state transformer: the result together with the
estimator afterwards (`predict` never mutates the estimator). -/
def predictS (m : MapieRegressor) (X : List ℚ) :
    Except MapieError (List (List ℚ)) × MapieRegressor :=
  (m.predict X, m)

/-- Run `fit` then `predict` on a fresh estimator; `none` when either step
fails. -/
def runFitPredict (m : MapieRegressor) (T : List (ℚ × ℚ)) (X : List ℚ) :
    Option (List (List ℚ)) :=
  match m.fit T with
  | Except.error _ => none
  | Except.ok m2 => (m2.predict X).toOption

/-- A fresh (unfitted) estimator from its configuration. -/
def mkMapie (b : Model) (name : String) (alpha : ℚ) (k : Nat) (rp : String) :
    MapieRegressor :=
  ⟨b, name, alpha, k, rp, none⟩

/-- The `(lower, upper)` interval that a freshly fitted estimator produces at
a single test point. -/
def predictInterval (b : Model) (name : String) (alpha : ℚ) (k : Nat)
    (rp : String) (T : List (ℚ × ℚ)) (x : ℚ) : Option (ℚ × ℚ) :=
  match runFitPredict (mkMapie b name alpha k rp) T [x] with
  | some [[_, lo, hi]] => some (lo, hi)
  | _ => none

/-- The nonconformity scores computed by `fit` for a given configuration,
in training order. -/
def scoresOf (b : Model) (name : String) (alpha : ℚ) (k : Nat)
    (T : List (ℚ × ℚ)) : Option (List ℚ) :=
  match (mkMapie b name alpha k "single").fit T with
  | Except.error _ => none
  | Except.ok m2 => m2.state.map (fun st => st.pointPreds.map (fun pr => pr.2))

/-! ## Concrete instances used to evaluate the model -/

/-- A trivial instance of the abstract generator (all draws `0`). -/
def rng0 : RNG := ⟨fun _ => 0, fun _ _ _ => 0, fun _ _ _ _ => 0, fun _ _ => 0, 0⟩

/-- A constant-zero base model. -/
def bZero : Model := fun _ _ => 0

/-- An adversarial base model: predicts `0` when trained on exactly two
points and `100` otherwise.  It is deterministic and exposes fit/predict, so
it is an admissible base regressor. -/
def bAdv : Model := fun T _ => if T.length = 2 then 0 else 100

/-- Two training points whose labels are both `100`. -/
def TAdv : List (ℚ × ℚ) := [(0, 100), (1, 100)]

/-- A small generic training set. -/
def TW : List (ℚ × ℚ) := [(0, 0), (1, 1)]

/-- A concrete unfitted estimator. -/
def mUnfit : MapieRegressor := mkMapie bZero "jackknife" (1 / 2) 5 "single"

/-- A concrete fitted state over `TW` with leave-one-out folds. -/
def stW : FitState := fitFolds bZero TW (foldsLOO 2)

/-- A concrete fitted estimator. -/
def mFitted : MapieRegressor := ⟨bZero, "jackknife", 1 / 2, 5, "single", some stW⟩

/-! ## Helper lemmas: list extrema -/

/-- The seed of a max-fold is below the fold's result. -/
lemma le_foldl_max (l : List ℚ) (a : ℚ) : a ≤ l.foldl max a := by
  induction l generalizing a with
  | nil => exact le_refl a
  | cons b t ih => exact le_trans (le_max_left a b) (ih (max a b))

/-- Every member of a list is below a max-fold over it. -/
lemma mem_le_foldl_max (l : List ℚ) : ∀ (a b : ℚ), b ∈ l → b ≤ l.foldl max a := by
  induction l with
  | nil => intro a b hb; cases hb
  | cons c t ih =>
    intro a b hb
    rw [List.foldl_cons]
    rcases List.mem_cons.1 hb with h | h
    · subst h; exact le_trans (le_max_right a b) (le_foldl_max t (max a b))
    · exact ih (max a c) b h

/-- Every member of a list is at most `listMax`. -/
lemma mem_le_listMax (l : List ℚ) (b : ℚ) (hb : b ∈ l) : b ≤ listMax l := by
  cases l with
  | nil => cases hb
  | cons a t =>
    rcases List.mem_cons.1 hb with h | h
    · exact h ▸ le_foldl_max t a
    · exact mem_le_foldl_max t a b h


/-- A min-fold's result is below its seed. -/
lemma foldl_min_le (l : List ℚ) (a : ℚ) : l.foldl min a ≤ a := by
  induction l generalizing a with
  | nil => exact le_refl a
  | cons b t ih => exact le_trans (ih (min a b)) (min_le_left a b)

/-- `listMin` is at most `listMax` on a nonempty list. -/
lemma listMin_le_listMax (l : List ℚ) (hl : l ≠ []) :
    listMin l ≤ listMax l := by
  cases l with
  | nil => exact absurd rfl hl
  | cons a t =>
    exact le_trans (foldl_min_le t a) (le_foldl_max t a)

/-! ## Helper lemmas: interpolated quantiles -/

/-- The clamped read of the empty list is `0`. -/
lemma sortedNth_nil (i : Nat) : sortedNth [] i = 0 := rfl

/-- The clamped read of a nonempty list is a member of it. -/
lemma sortedNth_mem (l : List ℚ) (hl : l ≠ []) (i : Nat) :
    sortedNth l i ∈ l := by
  have hlen : 0 < l.length := List.length_pos.2 hl
  have hidx : min i (l.length - 1) < l.length := by
    have : l.length - 1 < l.length := Nat.sub_lt hlen Nat.one_pos
    exact lt_of_le_of_lt (min_le_right i (l.length - 1)) this
  rw [sortedNth, List.getD_eq_getElem _ _ hidx]
  exact List.getElem_mem hidx

/-- Clamped reads of a sorted list are monotone in the index. -/
lemma sortedNth_mono (l : List ℚ) (hl : l.Sorted (· ≤ ·)) (i j : Nat)
    (hij : i ≤ j) : sortedNth l i ≤ sortedNth l j := by
  cases l with
  | nil => simp [sortedNth_nil]
  | cons a t =>
    have hlen : 0 < (a :: t).length := by simp
    have hi : min i ((a :: t).length - 1) < (a :: t).length :=
      lt_of_le_of_lt (min_le_right _ _) (Nat.sub_lt hlen Nat.one_pos)
    have hj : min j ((a :: t).length - 1) < (a :: t).length :=
      lt_of_le_of_lt (min_le_right _ _) (Nat.sub_lt hlen Nat.one_pos)
    rw [sortedNth, sortedNth, List.getD_eq_getElem _ _ hi,
      List.getD_eq_getElem _ _ hj]
    have hmm : min i ((a :: t).length - 1) ≤ min j ((a :: t).length - 1) :=
      min_le_min hij (le_refl _)
    have := hl.rel_get_of_le
      (a := ⟨min i ((a :: t).length - 1), hi⟩)
      (b := ⟨min j ((a :: t).length - 1), hj⟩) hmm
    simpa [List.get_eq_getElem] using this

/-- Linear interpolation rewritten as a convex combination. -/
lemma interp_eq_comb (v : Nat → ℚ) (h : ℚ) :
    interp v h
      = (1 - (h - (((⌊h⌋).toNat : ℚ)))) * v (⌊h⌋).toNat
        + (h - (((⌊h⌋).toNat : ℚ))) * v ((⌊h⌋).toNat + 1) := by
  rw [interp]; ring

/-- For a nonnegative position, the fractional offset used by `interp` lies
in `[0, 1)`. -/
lemma interp_fract_bounds (h : ℚ) (h0 : 0 ≤ h) :
    0 ≤ h - (((⌊h⌋).toNat : ℚ)) ∧ h - (((⌊h⌋).toNat : ℚ)) < 1 := by
  have h1 : (((⌊h⌋).toNat : ℤ)) = ⌊h⌋ :=
    Int.toNat_of_nonneg (Int.floor_nonneg.2 h0)
  have hfl : ((⌊h⌋).toNat : ℚ) = ((⌊h⌋ : ℤ) : ℚ) := by exact_mod_cast h1
  rw [hfl]
  constructor
  · linarith [Int.floor_le h]
  · linarith [Int.lt_floor_add_one h]

/-- Linear interpolation is monotone in the position when the values are
monotone. -/
lemma interp_mono (v : Nat → ℚ) (hv : ∀ i j : Nat, i ≤ j → v i ≤ v j)
    (h1 h2 : ℚ) (h10 : 0 ≤ h1) (h12 : h1 ≤ h2) :
    interp v h1 ≤ interp v h2 := by
  have h20 : 0 ≤ h2 := le_trans h10 h12
  have hii : (⌊h1⌋).toNat ≤ (⌊h2⌋).toNat :=
    Int.toNat_le_toNat (Int.floor_le_floor h12)
  obtain ⟨hg1, hg1'⟩ := interp_fract_bounds h1 h10
  obtain ⟨hg2, _⟩ := interp_fract_bounds h2 h20
  rcases Nat.lt_or_ge (⌊h1⌋).toNat (⌊h2⌋).toNat with hlt | hge
  · have hd1 : 0 ≤ v ((⌊h1⌋).toNat + 1) - v (⌊h1⌋).toNat :=
      sub_nonneg.2 (hv _ _ (Nat.le_succ _))
    have hd2 : 0 ≤ v ((⌊h2⌋).toNat + 1) - v (⌊h2⌋).toNat :=
      sub_nonneg.2 (hv _ _ (Nat.le_succ _))
    have step1 : interp v h1 ≤ v ((⌊h1⌋).toNat + 1) := by
      rw [interp]
      have := mul_le_mul_of_nonneg_right (le_of_lt hg1') hd1
      linarith
    have step2 : v ((⌊h1⌋).toNat + 1) ≤ v (⌊h2⌋).toNat :=
      hv _ _ (Nat.succ_le_of_lt hlt)
    have step3 : v (⌊h2⌋).toNat ≤ interp v h2 := by
      rw [interp]
      have := mul_nonneg hg2 hd2
      linarith
    linarith
  · have heq : (⌊h1⌋).toNat = (⌊h2⌋).toNat := le_antisymm hii hge
    rw [interp, interp, heq]
    have hd : 0 ≤ v ((⌊h2⌋).toNat + 1) - v (⌊h2⌋).toNat :=
      sub_nonneg.2 (hv _ _ (Nat.le_succ _))
    have hsub : h1 - (((⌊h2⌋).toNat : ℚ)) ≤ h2 - (((⌊h2⌋).toNat : ℚ)) :=
      sub_le_sub_right h12 _
    have := mul_le_mul_of_nonneg_right hsub hd
    linarith

/-- The quantile of the empty sample is `0`. -/
lemma quantile_nil (q : ℚ) : quantile [] q = 0 := by
  simp [quantile, interp, sortedNth, List.insertionSort]

/-- The interpolated empirical quantile is monotone in the level. -/
lemma quantile_mono (s : List ℚ) (q1 q2 : ℚ) (hq0 : 0 ≤ q1)
    (h12 : q1 ≤ q2) : quantile s q1 ≤ quantile s q2 := by
  cases s with
  | nil => rw [quantile_nil, quantile_nil]
  | cons a t =>
    have hsort : (List.insertionSort (· ≤ ·) (a :: t)).Sorted (· ≤ ·) :=
      List.sorted_insertionSort (· ≤ ·) (a :: t)
    have hn : (0 : ℚ) ≤ ((a :: t).length : ℚ) - 1 := by
      have : (1 : ℚ) ≤ ((a :: t).length : ℚ) := by
        have : 1 ≤ (a :: t).length := by simp
        exact_mod_cast this
      linarith
    exact interp_mono _ (fun i j hij => sortedNth_mono _ hsort i j hij)
      _ _ (mul_nonneg hq0 hn) (mul_le_mul_of_nonneg_right h12 hn)

/-- The interpolated quantile of a nonnegative sample is nonnegative for
levels in `[0, 1]`. -/
lemma quantile_nonneg (s : List ℚ) (q : ℚ) (hq0 : 0 ≤ q)
    (hs : ∀ a ∈ s, 0 ≤ a) : 0 ≤ quantile s q := by
  cases s with
  | nil => rw [quantile_nil]
  | cons a t =>
    set l := List.insertionSort (· ≤ ·) (a :: t) with hldef
    have hlne : l ≠ [] := by
      have : l.length = (a :: t).length :=
        (List.perm_insertionSort (· ≤ ·) (a :: t)).length_eq
      intro hnil; rw [hnil] at this; simp at this
    have hv : ∀ j, 0 ≤ sortedNth l j := by
      intro j
      have hmem : sortedNth l j ∈ l := sortedNth_mem l hlne j
      have : sortedNth l j ∈ (a :: t) :=
        (List.perm_insertionSort (· ≤ ·) (a :: t)).mem_iff.1 hmem
      exact hs _ this
    have hn : (0 : ℚ) ≤ ((a :: t).length : ℚ) - 1 := by
      have : (1 : ℚ) ≤ ((a :: t).length : ℚ) := by
        have : 1 ≤ (a :: t).length := by simp
        exact_mod_cast this
      linarith
    have hpos : 0 ≤ q * (((a :: t).length : ℚ) - 1) := mul_nonneg hq0 hn
    obtain ⟨hg, hg'⟩ := interp_fract_bounds _ hpos
    rw [quantile, interp_eq_comb]
    have := hv (⌊q * (((a :: t).length : ℚ) - 1)⌋).toNat
    have := hv ((⌊q * (((a :: t).length : ℚ) - 1)⌋).toNat + 1)
    nlinarith

/-- The interpolated quantile of a nonempty sample never exceeds its
maximum, for levels in `[0, 1]`. -/
lemma quantile_le_listMax (s : List ℚ) (q : ℚ) (hq0 : 0 ≤ q)
    (hs : s ≠ []) : quantile s q ≤ listMax s := by
  cases s with
  | nil => exact absurd rfl hs
  | cons a t =>
    set l := List.insertionSort (· ≤ ·) (a :: t) with hldef
    have hlne : l ≠ [] := by
      have : l.length = (a :: t).length :=
        (List.perm_insertionSort (· ≤ ·) (a :: t)).length_eq
      intro hnil; rw [hnil] at this; simp at this
    have hv : ∀ j, sortedNth l j ≤ listMax (a :: t) := by
      intro j
      have hmem : sortedNth l j ∈ l := sortedNth_mem l hlne j
      have : sortedNth l j ∈ (a :: t) :=
        (List.perm_insertionSort (· ≤ ·) (a :: t)).mem_iff.1 hmem
      exact mem_le_listMax _ _ this
    have hn : (0 : ℚ) ≤ ((a :: t).length : ℚ) - 1 := by
      have : (1 : ℚ) ≤ ((a :: t).length : ℚ) := by
        have : 1 ≤ (a :: t).length := by simp
        exact_mod_cast this
      linarith
    have hpos : 0 ≤ q * (((a :: t).length : ℚ) - 1) := mul_nonneg hq0 hn
    obtain ⟨hg, hg'⟩ := interp_fract_bounds _ hpos
    rw [quantile, interp_eq_comb]
    have hv1 := hv (⌊q * (((a :: t).length : ℚ) - 1)⌋).toNat
    have hv2 := hv ((⌊q * (((a :: t).length : ℚ) - 1)⌋).toNat + 1)
    nlinarith

/-! ## Helper lemmas: the estimator pipeline -/

/-- `fit` succeeds and stores the fold state when the method parses, alpha is
valid and — for cv methods — `n_splits` is in range. -/
lemma fit_ok (m : MapieRegressor) (T : List (ℚ × ℚ)) (meth : Method)
    (hp : parseMethod m.method = some meth)
    (ha : 0 < m.alpha ∧ m.alpha < 1)
    (hk : meth.isCV = true → 2 ≤ m.n_splits ∧ m.n_splits ≤ T.length) :
    m.fit T = Except.ok (MapieRegressor.mk m.base m.method m.alpha m.n_splits
      m.return_pred
      (some (fitFolds m.base T (methodFolds meth T.length m.n_splits)))) := by
  simp only [MapieRegressor.fit, hp]
  rw [if_pos ha, if_neg]
  intro hcon
  exact hcon.2 (hk hcon.1)

/-- `predict` on a fitted estimator maps the row function over the test
points. -/
lemma predict_ok (m : MapieRegressor) (st : FitState) (meth : Method)
    (X : List ℚ) (hs : m.state = some st)
    (hp : parseMethod m.method = some meth) :
    m.predict X = Except.ok (X.map (predictRow m meth st)) := by
  simp only [MapieRegressor.predict, hs, hp]

/-- `fit` on a fresh estimator, with the stored state spelled out. -/
lemma fit_mk_ok (b : Model) (name : String) (alpha : ℚ) (k : Nat)
    (rp : String) (T : List (ℚ × ℚ)) (meth : Method)
    (hp : parseMethod name = some meth)
    (ha : 0 < alpha ∧ alpha < 1)
    (hk : meth.isCV = true → 2 ≤ k ∧ k ≤ T.length) :
    (mkMapie b name alpha k rp).fit T
      = Except.ok (MapieRegressor.mk b name alpha k rp
          (some (fitFolds b T (methodFolds meth T.length k)))) :=
  fit_ok _ T meth hp ha hk

/-- `fit` followed by `predict` on a single test point, fully reduced. -/
lemma runFitPredict_single (b : Model) (name : String) (alpha : ℚ) (k : Nat)
    (rp : String) (T : List (ℚ × ℚ)) (x : ℚ) (meth : Method)
    (hp : parseMethod name = some meth)
    (ha : 0 < alpha ∧ alpha < 1)
    (hk : meth.isCV = true → 2 ≤ k ∧ k ≤ T.length) :
    runFitPredict (mkMapie b name alpha k rp) T [x]
      = some [predictRow (MapieRegressor.mk b name alpha k rp
          (some (fitFolds b T (methodFolds meth T.length k)))) meth
          (fitFolds b T (methodFolds meth T.length k)) x] := by
  have hfit := fit_mk_ok b name alpha k rp T meth hp ha hk
  have hpred := predict_ok (MapieRegressor.mk b name alpha k rp
    (some (fitFolds b T (methodFolds meth T.length k))))
    (fitFolds b T (methodFolds meth T.length k)) meth [x] rfl hp
  simp only [runFitPredict, hfit, hpred, Except.toOption, List.map_cons,
    List.map_nil]

/-- Reading off the interval from a computed row. -/
lemma predictInterval_eq (b : Model) (name : String) (alpha : ℚ) (k : Nat)
    (rp : String) (T : List (ℚ × ℚ)) (x pt lo hi : ℚ)
    (h : runFitPredict (mkMapie b name alpha k rp) T [x] = some [[pt, lo, hi]]) :
    predictInterval b name alpha k rp T x = some (lo, hi) := by
  unfold predictInterval
  rw [h]

/-- The row of the `jackknife`/`cv` aggregation: full-model prediction ± the
`(1 - alpha)` score quantile. -/
lemma predictRow_base_eq (b : Model) (name : String) (alpha : ℚ) (k : Nat)
    (rp : String) (st : FitState) (meth : Method) (x : ℚ)
    (hm : meth = Method.jackknife ∨ meth = Method.cv) :
    predictRow (MapieRegressor.mk b name alpha k rp (some st)) meth st x
      = [pointAt st rp x,
         st.muFull x
           - quantile (st.pointPreds.map (fun pr => pr.2)) (1 - alpha),
         st.muFull x
           + quantile (st.pointPreds.map (fun pr => pr.2)) (1 - alpha)] := by
  rcases hm with rfl | rfl <;> rfl

/-- The row of the `jackknife_plus`/`cv_plus` aggregation: per-point
quantiles of the shifted fold predictions. -/
lemma predictRow_plus_eq (b : Model) (name : String) (alpha : ℚ) (k : Nat)
    (rp : String) (st : FitState) (meth : Method) (x : ℚ)
    (hm : meth = Method.jackknife_plus ∨ meth = Method.cv_plus) :
    predictRow (MapieRegressor.mk b name alpha k rp (some st)) meth st x
      = [pointAt st rp x,
         quantile (st.pointPreds.map (fun pr => pr.1 x - pr.2)) alpha,
         quantile (st.pointPreds.map (fun pr => pr.1 x + pr.2)) (1 - alpha)] := by
  rcases hm with rfl | rfl <;> rfl

/-- The row of the `jackknife_minmax`/`cv_minmax` aggregation: fold-prediction
extremes widened by the maximal score. -/
lemma predictRow_minmax_eq (b : Model) (name : String) (alpha : ℚ) (k : Nat)
    (rp : String) (st : FitState) (meth : Method) (x : ℚ)
    (hm : meth = Method.jackknife_minmax ∨ meth = Method.cv_minmax) :
    predictRow (MapieRegressor.mk b name alpha k rp (some st)) meth st x
      = [pointAt st rp x,
         listMin (st.foldModels.map (fun g => g x))
           - listMax (st.pointPreds.map (fun pr => pr.2)),
         listMax (st.foldModels.map (fun g => g x))
           + listMax (st.pointPreds.map (fun pr => pr.2))] := by
  rcases hm with rfl | rfl <;> rfl

/-- Every nonconformity score produced by `fitFolds` is nonnegative. -/
lemma fitFolds_scores_nonneg (b : Model) (T : List (ℚ × ℚ))
    (folds : List (List Nat)) :
    ∀ a ∈ (fitFolds b T folds).pointPreds.map (fun pr => pr.2), 0 ≤ a := by
  intro a ha
  simp only [fitFolds, List.mem_map, List.mem_flatten] at ha
  obtain ⟨pr, ⟨l, hl, hpr⟩, rfl⟩ := ha
  obtain ⟨F, _, rfl⟩ := hl
  simp only [foldResiduals, List.mem_map] at hpr
  obtain ⟨p, _, rfl⟩ := hpr
  exact abs_nonneg _

/-- A flatten of a list containing a nonempty list is nonempty. -/
lemma flatten_ne_nil_of_mem {α : Type} (L : List (List α)) (l : List α)
    (hl : l ∈ L) (hne : l ≠ []) : L.flatten ≠ [] := by
  induction L with
  | nil => cases hl
  | cons c t ih =>
    rcases List.mem_cons.1 hl with h | h
    · subst h
      intro hcon
      rw [List.flatten_cons] at hcon
      exact hne (List.append_eq_nil.1 hcon).1
    · intro hcon
      rw [List.flatten_cons] at hcon
      exact ih h (List.append_eq_nil.1 hcon).2

/-- A fold holding a valid index produces at least one residual. -/
lemma foldResiduals_ne_nil (b : Model) (T : List (ℚ × ℚ)) (F : List Nat)
    (i : Nat) (hi : i ∈ F) (hiT : i < T.length) :
    foldResiduals b T F ≠ [] := by
  simp only [foldResiduals, ne_eq, List.map_eq_nil_iff]
  intro hsel
  rw [selectIdx, List.filterMap_eq_nil_iff] at hsel
  have := hsel i hi
  rw [List.get?_eq_get hiT] at this
  cases this

/-- The score list of `fitFolds` is nonempty as soon as some fold holds a
valid index. -/
lemma fitFolds_scores_ne_nil (b : Model) (T : List (ℚ × ℚ))
    (folds : List (List Nat)) (F : List Nat) (i : Nat)
    (hF : F ∈ folds) (hi : i ∈ F) (hiT : i < T.length) :
    (fitFolds b T folds).pointPreds.map (fun pr => pr.2) ≠ [] := by
  simp only [fitFolds, ne_eq, List.map_eq_nil_iff]
  exact flatten_ne_nil_of_mem _ _ (List.mem_map_of_mem _ hF)
    (foldResiduals_ne_nil b T F i hi hiT)

/-- The fold predictions of `fitFolds` are nonempty when there is a fold. -/
lemma fitFolds_foldPreds_ne_nil (b : Model) (T : List (ℚ × ℚ))
    (folds : List (List Nat)) (F : List Nat) (hF : F ∈ folds) (x : ℚ) :
    (fitFolds b T folds).foldModels.map (fun g => g x) ≠ [] := by
  simp only [fitFolds, ne_eq, List.map_eq_nil_iff]
  exact List.ne_nil_of_mem hF

/-! ## Helper lemmas: fold partitions -/

/-- With `n_splits = n_samples`, every fold has size 1. -/
lemma foldSizes_self (n : Nat) (hn : 1 ≤ n) :
    foldSizes n n = List.replicate n 1 := by
  unfold foldSizes
  rw [Nat.div_self hn, Nat.mod_self]
  simp

/-- Blocks of all-singleton sizes are exactly the singleton lists of
consecutive indices. -/
lemma foldsOfSizes_replicate (n : Nat) : ∀ start : Nat,
    foldsOfSizes (List.replicate n 1) start
      = (List.range n).map (fun i => [i + start]) := by
  induction n with
  | zero => intro start; simp [foldsOfSizes]
  | succ m ih =>
    intro start
    rw [List.replicate_succ, foldsOfSizes, ih (start + 1)]
    have hfun : (fun i => [i + (start + 1)])
        = ((fun i => [i + start]) ∘ Nat.succ) := by
      funext i
      simp only [Function.comp_apply, List.cons.injEq, and_true]
      omega
    simp only [List.range_succ_eq_map, List.range_zero, List.map_cons,
      List.map_nil, List.map_map]
    rw [hfun]

/-- With `n_splits = n_samples`, the cv partition is the leave-one-out
partition. -/
lemma foldsCV_self (n : Nat) (hn : 1 ≤ n) : foldsCV n n = foldsLOO n := by
  rw [foldsCV, foldSizes_self n hn, foldsOfSizes_replicate, foldsLOO]
  simp

/-- The leave-one-out partition contains the fold `[0]` when `n` is
positive. -/
lemma foldsLOO_mem_zero (n : Nat) (hn : 0 < n) : [0] ∈ foldsLOO n :=
  List.mem_map.2 ⟨0, List.mem_range.2 hn, rfl⟩

/-- The cv partition has a fold containing index 0 when `1 ≤ k ≤ n`. -/
lemma foldsCV_exists_fold (n k : Nat) (hk1 : 1 ≤ k) (hkn : k ≤ n) :
    ∃ F ∈ foldsCV n k, 0 ∈ F := by
  obtain ⟨k2, rfl⟩ : ∃ k2, k = k2 + 1 := ⟨k - 1, by omega⟩
  rw [foldsCV, foldSizes, List.range_succ_eq_map, List.map_cons, foldsOfSizes]
  refine ⟨(List.range (n / (k2 + 1)
      + if 0 < n % (k2 + 1) then 1 else 0)).map (· + 0),
    List.mem_cons_self _ _, ?_⟩
  have hdiv : 1 ≤ n / (k2 + 1) := (Nat.one_le_div_iff (Nat.succ_pos k2)).2 hkn
  exact List.mem_map.2 ⟨0, List.mem_range.2 (by omega), rfl⟩

/-- The nonconformity scores of a configuration whose `fit` succeeds. -/
lemma scoresOf_eq (b : Model) (name : String) (alpha : ℚ) (k : Nat)
    (T : List (ℚ × ℚ)) (meth : Method)
    (hp : parseMethod name = some meth)
    (ha : 0 < alpha ∧ alpha < 1)
    (hk : meth.isCV = true → 2 ≤ k ∧ k ≤ T.length) :
    scoresOf b name alpha k T
      = some ((fitFolds b T (methodFolds meth T.length k)).pointPreds.map
          (fun pr => pr.2)) := by
  have hfit := fit_mk_ok b name alpha k "single" T meth hp ha hk
  simp only [scoresOf, hfit]
  rfl

/-- The quantile of a two-element constant sample is that constant, at every
level. -/
lemma quantile_pair_same (c q : ℚ) : quantile [c, c] q = c := by
  have hsort : List.insertionSort (· ≤ ·) [c, c] = [c, c] := by
    simp [List.insertionSort, List.orderedInsert]
  have hv : ∀ j, sortedNth [c, c] j = c := by
    intro j
    rw [sortedNth]
    have : min j ([c, c].length - 1) = 0 ∨ min j ([c, c].length - 1) = 1 := by
      simp only [List.length_cons, List.length_nil]
      omega
    rcases this with h | h <;> rw [h] <;> rfl
  rw [quantile, hsort, interp, hv, hv]
  ring

/-! ## Claim theorems -/

/-- C6: calling `predict` before any successful `fit` fails with
`NotFittedError`, for every estimator configuration and method, and leaves
the estimator's state unchanged. -/
theorem C6_predict_unfitted (m : MapieRegressor) (X : List ℚ)
    (h : m.state = none) :
    predictS m X = (Except.error MapieError.NotFittedError, m) := by
  simp [predictS, MapieRegressor.predict, h]

/-- C6 witness: a concrete unfitted estimator. -/
theorem C6_predict_unfitted_witness :
    predictS mUnfit [0] = (Except.error MapieError.NotFittedError, mUnfit) :=
  C6_predict_unfitted mUnfit [0] rfl

/-- C7: a method string outside the recognised set makes the estimator fail
with `InvalidMethodError`. -/
theorem C7_invalid_method (m : MapieRegressor) (T : List (ℚ × ℚ))
    (h : parseMethod m.method = none) :
    m.fit T = Except.error MapieError.InvalidMethodError := by
  simp [MapieRegressor.fit, h]

/-- C7 witness: `method = "bogus"` is rejected. -/
theorem C7_invalid_method_witness :
    (mkMapie bZero "bogus" (1 / 2) 5 "single").fit TW
      = Except.error MapieError.InvalidMethodError :=
  C7_invalid_method _ _ rfl

/-- C8: for a cv-family method with valid alpha, `fit` fails with
`InvalidConfigError` exactly when `n_splits < 2` or
`n_splits > n_samples`. -/
theorem C8_nsplits_range (m : MapieRegressor) (T : List (ℚ × ℚ))
    (meth : Method) (hp : parseMethod m.method = some meth)
    (hcv : meth.isCV = true) (ha1 : 0 < m.alpha) (ha2 : m.alpha < 1) :
    (m.fit T = Except.error MapieError.InvalidConfigError
      ↔ (m.n_splits < 2 ∨ T.length < m.n_splits)) := by
  simp only [MapieRegressor.fit, hp]
  rw [if_pos ⟨ha1, ha2⟩]
  by_cases hk : 2 ≤ m.n_splits ∧ m.n_splits ≤ T.length
  · rw [if_neg (fun hcon => hcon.2 hk)]
    constructor
    · intro hcon; cases hcon
    · intro hor; omega
  · rw [if_pos ⟨hcv, hk⟩]
    constructor
    · intro _; omega
    · intro _; rfl

/-- C8 witness: `n_splits = 1` on two samples is rejected. -/
theorem C8_nsplits_range_witness :
    ((mkMapie bZero "cv" (1 / 2) 1 "single").fit TW
        = Except.error MapieError.InvalidConfigError
      ↔ ((mkMapie bZero "cv" (1 / 2) 1 "single").n_splits < 2
          ∨ TW.length < (mkMapie bZero "cv" (1 / 2) 1 "single").n_splits)) :=
  C8_nsplits_range _ TW Method.cv rfl rfl
    (by show (0 : ℚ) < 1 / 2; norm_num) (by show (1 : ℚ) / 2 < 1; norm_num)

/-- C10: `get_homoscedastic_data` reseeds the generator with the fixed value
59, so its output is independent of the incoming generator state (two calls
with the same `n_samples`, `n_test`, `sigma` agree), and `y_true` is `f`
applied to `X_true` with no noise added. -/
theorem C10_data_deterministic (rng : RNG) (s0 s0' : Nat)
    (n_samples n_test : Nat) (sigma : ℚ) :
    get_homoscedastic_data rng s0 n_samples n_test sigma
        = get_homoscedastic_data rng s0' n_samples n_test sigma
      ∧ (get_homoscedastic_data rng s0 n_samples n_test sigma).y_true
        = ((get_homoscedastic_data rng s0 n_samples n_test sigma).X_true).map
            fpoly :=
  ⟨rfl, rfl⟩

/-- C9 counterexample: the script's call site passes `n_test = 200`, so the
test grid on which the intervals are evaluated has 200 points, not 1000. -/
theorem C9_counterexample :
    ((scriptData rng0 0).X_true).length = 200
      ∧ ¬ ((scriptData rng0 0).X_true).length = 1000 := by
  have hX : (scriptData rng0 0).X_true = linspace (1 / 1000) (6 / 5) 200 := rfl
  have h : ((scriptData rng0 0).X_true).length = 200 := by
    rw [hX, linspace, List.length_map, List.length_range]
  exact ⟨h, by omega⟩

/-- C9 (amended): the script fits on data `y = f(x) + gaussian noise` with
`f(x) = 5x + 5x⁴ - 9x²` and `sigma = 0.1`, `n = 200` training samples and
`alpha = 0.05`, and evaluates the resulting intervals on 200 (not 1000) test
points. -/
theorem C9_scenario (rng : RNG) (s0 : Nat) :
    ((scriptData rng s0).X_train).length = 200
      ∧ ((scriptData rng s0).X_true).length = 200
      ∧ scriptAlpha = 1 / 20
      ∧ scriptSigma = 1 / 10
      ∧ (scriptData rng s0).y_train
          = List.zipWith (· + ·) (((scriptData rng s0).X_train).map fpoly)
              ((List.range 200).map
                (rng.normSample (rng.nextState (rng.seedState 59) 200) 0
                  scriptSigma))
      ∧ (scriptData rng s0).y_true
          = ((scriptData rng s0).X_true).map fpoly := by
  have hXtr : (scriptData rng s0).X_train
      = (List.range 200).map (rng.expSample (rng.seedState 59) (2 / 5)) := rfl
  have hXte : (scriptData rng s0).X_true = linspace (1 / 1000) (6 / 5) 200 := rfl
  refine ⟨?_, ?_, rfl, rfl, rfl, rfl⟩
  · rw [hXtr, List.length_map, List.length_range]
  · rw [hXte, linspace, List.length_map, List.length_range]

/-- C2: on an estimator whose `fit` has stored a state, `predict` over `m`
test points returns `m` rows, each of length 3 and equal to
`[point prediction, lower bound, upper bound]`. -/
theorem C2_predict_shape (m : MapieRegressor) (st : FitState) (meth : Method)
    (X : List ℚ) (hs : m.state = some st)
    (hp : parseMethod m.method = some meth) :
    ∃ rows, m.predict X = Except.ok rows
      ∧ rows.length = X.length
      ∧ (∀ r ∈ rows, r.length = 3)
      ∧ rows = X.map (fun x =>
          [pointAt st m.return_pred x,
           (intervalAt meth st m.alpha x).1,
           (intervalAt meth st m.alpha x).2]) := by
  refine ⟨X.map (predictRow m meth st), predict_ok m st meth X hs hp, ?_, ?_, rfl⟩
  · exact List.length_map X _
  · intro r hr
    obtain ⟨x, _, rfl⟩ := List.mem_map.1 hr
    rfl

/-- C2 witness: a concrete fitted estimator on two test points. -/
theorem C2_predict_shape_witness :
    ∃ rows, mFitted.predict [0, 1] = Except.ok rows
      ∧ rows.length = ([0, 1] : List ℚ).length
      ∧ (∀ r ∈ rows, r.length = 3)
      ∧ rows = ([0, 1] : List ℚ).map (fun x =>
          [pointAt stW mFitted.return_pred x,
           (intervalAt Method.jackknife stW mFitted.alpha x).1,
           (intervalAt Method.jackknife stW mFitted.alpha x).2]) :=
  C2_predict_shape mFitted stW Method.jackknife [0, 1] rfl rfl

/-- C1 (amended): for the `jackknife` and `cv` methods with the point
prediction taken from the full model (`return_pred = "single"`), every
alpha in (0,1) and every test point, the returned triple satisfies
lower bound ≤ point prediction ≤ upper bound.  As stated over all six
methods the claim fails: see the counterexample, where `jackknife_plus`
puts the point prediction below the lower bound. -/
theorem C1_interval_brackets_point (b : Model) (T : List (ℚ × ℚ))
    (name : String) (alpha : ℚ) (k : Nat) (x : ℚ) (meth : Method)
    (hp : parseMethod name = some meth)
    (hm : meth = Method.jackknife ∨ meth = Method.cv)
    (ha : 0 < alpha ∧ alpha < 1)
    (hk : meth.isCV = true → 2 ≤ k ∧ k ≤ T.length) :
    ∃ pt lo hi, runFitPredict (mkMapie b name alpha k "single") T [x]
        = some [[pt, lo, hi]]
      ∧ lo ≤ pt ∧ pt ≤ hi := by
  have hrun := runFitPredict_single b name alpha k "single" T x meth hp ha hk
  have hrow := predictRow_base_eq b name alpha k "single"
    (fitFolds b T (methodFolds meth T.length k)) meth x hm
  have hq0 : 0 ≤ quantile
      ((fitFolds b T (methodFolds meth T.length k)).pointPreds.map
        (fun pr => pr.2)) (1 - alpha) :=
    quantile_nonneg _ _ (by linarith [ha.2]) (fitFolds_scores_nonneg b T _)
  refine ⟨(fitFolds b T (methodFolds meth T.length k)).muFull x,
    (fitFolds b T (methodFolds meth T.length k)).muFull x
      - quantile ((fitFolds b T (methodFolds meth T.length k)).pointPreds.map
          (fun pr => pr.2)) (1 - alpha),
    (fitFolds b T (methodFolds meth T.length k)).muFull x
      + quantile ((fitFolds b T (methodFolds meth T.length k)).pointPreds.map
          (fun pr => pr.2)) (1 - alpha), ?_, ?_, ?_⟩
  · rw [hrun, hrow]
    rfl
  · exact sub_le_self _ hq0
  · exact le_add_of_nonneg_right hq0

/-- C1 witness: jackknife with a constant base model on two points. -/
theorem C1_interval_brackets_point_witness :
    ∃ pt lo hi, runFitPredict (mkMapie bZero "jackknife" (1 / 2) 5 "single")
        TW [0] = some [[pt, lo, hi]]
      ∧ lo ≤ pt ∧ pt ≤ hi :=
  C1_interval_brackets_point bZero TW "jackknife" (1 / 2) 5 0
    Method.jackknife rfl (Or.inl rfl) ⟨by norm_num, by norm_num⟩
    (fun h => Bool.noConfusion h)

/-- C1 counterexample: the adversarial base model `bAdv` predicts 0 on the
full two-point training set but 100 on every one-point subset, with zero
leave-one-out residuals; `jackknife_plus` at `alpha = 1/2` then returns the
row `[0, 100, 100]`, whose lower bound 100 exceeds the point prediction
0. -/
theorem C1_counterexample :
    runFitPredict (mkMapie bAdv "jackknife_plus" (1 / 2) 5 "single") TAdv [0]
        = some [[0, 100, 100]]
      ∧ ¬ ((100 : ℚ) ≤ 0) := by
  constructor
  · have hrun := runFitPredict_single bAdv "jackknife_plus" (1 / 2) 5
      "single" TAdv 0 Method.jackknife_plus rfl
      ⟨by norm_num, by norm_num⟩ (fun h => Bool.noConfusion h)
    have hrow := predictRow_plus_eq bAdv "jackknife_plus" (1 / 2) 5 "single"
      (fitFolds bAdv TAdv (methodFolds Method.jackknife_plus TAdv.length 5))
      Method.jackknife_plus 0 (Or.inl rfl)
    rw [hrun, hrow]
    have hlow : (fitFolds bAdv TAdv
          (methodFolds Method.jackknife_plus TAdv.length 5)).pointPreds.map
          (fun pr => pr.1 0 - pr.2)
        = [(100 : ℚ) - |100 - 100|, 100 - |100 - 100|] := rfl
    have hhigh : (fitFolds bAdv TAdv
          (methodFolds Method.jackknife_plus TAdv.length 5)).pointPreds.map
          (fun pr => pr.1 0 + pr.2)
        = [(100 : ℚ) + |100 - 100|, 100 + |100 - 100|] := rfl
    rw [hlow, hhigh]
    have habs : |(100 : ℚ) - 100| = 0 := by norm_num
    rw [habs]
    have h100 : (100 : ℚ) - 0 = 100 := by norm_num
    have h100' : (100 : ℚ) + 0 = 100 := by norm_num
    rw [h100, h100', quantile_pair_same, quantile_pair_same]
    rfl
  · norm_num

/-- C3: for identical training data, test point and alpha, the interval of
the minmax variant is at least as wide as the interval of the corresponding
base variant, both for the jackknife family and for the cv family. -/
theorem C3_minmax_at_least_as_wide (b : Model) (T : List (ℚ × ℚ))
    (alpha : ℚ) (k : Nat) (x : ℚ) (mM mB : String)
    (ha : 0 < alpha ∧ alpha < 1)
    (hpair : (mM = "jackknife_minmax" ∧ mB = "jackknife" ∧ T ≠ [])
      ∨ (mM = "cv_minmax" ∧ mB = "cv" ∧ 2 ≤ k ∧ k ≤ T.length)) :
    ∃ lo1 hi1 lo2 hi2,
      predictInterval b mM alpha k "single" T x = some (lo1, hi1)
      ∧ predictInterval b mB alpha k "single" T x = some (lo2, hi2)
      ∧ hi2 - lo2 ≤ hi1 - lo1 := by
  rcases hpair with ⟨rfl, rfl, hT⟩ | ⟨rfl, rfl, hk2, hkn⟩
  · have hn : 0 < T.length := List.length_pos.2 hT
    have hrunM := runFitPredict_single b "jackknife_minmax" alpha k "single"
      T x Method.jackknife_minmax rfl ha (fun h => Bool.noConfusion h)
    have hrunB := runFitPredict_single b "jackknife" alpha k "single"
      T x Method.jackknife rfl ha (fun h => Bool.noConfusion h)
    have h1 : methodFolds Method.jackknife_minmax T.length k
        = foldsLOO T.length := rfl
    have h2 : methodFolds Method.jackknife T.length k
        = foldsLOO T.length := rfl
    rw [h1] at hrunM
    rw [h2] at hrunB
    have hrowM := predictRow_minmax_eq b "jackknife_minmax" alpha k "single"
      (fitFolds b T (foldsLOO T.length)) Method.jackknife_minmax x (Or.inl rfl)
    have hrowB := predictRow_base_eq b "jackknife" alpha k "single"
      (fitFolds b T (foldsLOO T.length)) Method.jackknife x (Or.inl rfl)
    have hsne : (fitFolds b T (foldsLOO T.length)).pointPreds.map
        (fun pr => pr.2) ≠ [] :=
      fitFolds_scores_ne_nil b T _ [0] 0 (foldsLOO_mem_zero T.length hn)
        (List.mem_cons_self 0 []) hn
    have hqle : quantile ((fitFolds b T (foldsLOO T.length)).pointPreds.map
          (fun pr => pr.2)) (1 - alpha)
        ≤ listMax ((fitFolds b T (foldsLOO T.length)).pointPreds.map
          (fun pr => pr.2)) :=
      quantile_le_listMax _ _ (by linarith [ha.2]) hsne
    have hpne : (fitFolds b T (foldsLOO T.length)).foldModels.map
        (fun g => g x) ≠ [] :=
      fitFolds_foldPreds_ne_nil b T _ [0] (foldsLOO_mem_zero T.length hn) x
    have hmm : listMin ((fitFolds b T (foldsLOO T.length)).foldModels.map
          (fun g => g x))
        ≤ listMax ((fitFolds b T (foldsLOO T.length)).foldModels.map
          (fun g => g x)) := listMin_le_listMax _ hpne
    refine ⟨_, _, _, _,
      predictInterval_eq _ _ _ _ _ _ _ _ _ _ (by rw [hrunM, hrowM]),
      predictInterval_eq _ _ _ _ _ _ _ _ _ _ (by rw [hrunB, hrowB]), ?_⟩
    linarith
  · have hn : 0 < T.length := by omega
    obtain ⟨F, hF, h0F⟩ := foldsCV_exists_fold T.length k (by omega) hkn
    have hrunM := runFitPredict_single b "cv_minmax" alpha k "single"
      T x Method.cv_minmax rfl ha (fun _ => ⟨hk2, hkn⟩)
    have hrunB := runFitPredict_single b "cv" alpha k "single"
      T x Method.cv rfl ha (fun _ => ⟨hk2, hkn⟩)
    have h1 : methodFolds Method.cv_minmax T.length k = foldsCV T.length k := rfl
    have h2 : methodFolds Method.cv T.length k = foldsCV T.length k := rfl
    rw [h1] at hrunM
    rw [h2] at hrunB
    have hrowM := predictRow_minmax_eq b "cv_minmax" alpha k "single"
      (fitFolds b T (foldsCV T.length k)) Method.cv_minmax x (Or.inr rfl)
    have hrowB := predictRow_base_eq b "cv" alpha k "single"
      (fitFolds b T (foldsCV T.length k)) Method.cv x (Or.inr rfl)
    have hsne : (fitFolds b T (foldsCV T.length k)).pointPreds.map
        (fun pr => pr.2) ≠ [] :=
      fitFolds_scores_ne_nil b T _ F 0 hF h0F hn
    have hqle : quantile ((fitFolds b T (foldsCV T.length k)).pointPreds.map
          (fun pr => pr.2)) (1 - alpha)
        ≤ listMax ((fitFolds b T (foldsCV T.length k)).pointPreds.map
          (fun pr => pr.2)) :=
      quantile_le_listMax _ _ (by linarith [ha.2]) hsne
    have hpne : (fitFolds b T (foldsCV T.length k)).foldModels.map
        (fun g => g x) ≠ [] :=
      fitFolds_foldPreds_ne_nil b T _ F hF x
    have hmm : listMin ((fitFolds b T (foldsCV T.length k)).foldModels.map
          (fun g => g x))
        ≤ listMax ((fitFolds b T (foldsCV T.length k)).foldModels.map
          (fun g => g x)) := listMin_le_listMax _ hpne
    refine ⟨_, _, _, _,
      predictInterval_eq _ _ _ _ _ _ _ _ _ _ (by rw [hrunM, hrowM]),
      predictInterval_eq _ _ _ _ _ _ _ _ _ _ (by rw [hrunB, hrowB]), ?_⟩
    linarith

/-- C3 witness: the jackknife pair on a concrete two-point training set. -/
theorem C3_minmax_at_least_as_wide_witness :
    ∃ lo1 hi1 lo2 hi2,
      predictInterval bZero "jackknife_minmax" (1 / 2) 5 "single" TW 0
        = some (lo1, hi1)
      ∧ predictInterval bZero "jackknife" (1 / 2) 5 "single" TW 0
        = some (lo2, hi2)
      ∧ hi2 - lo2 ≤ hi1 - lo1 :=
  C3_minmax_at_least_as_wide bZero TW (1 / 2) 5 0 "jackknife_minmax"
    "jackknife" ⟨by norm_num, by norm_num⟩
    (Or.inl ⟨rfl, rfl, List.cons_ne_nil _ _⟩)

/-- C4: interval width is antitone in alpha — for each of the six methods,
a larger miscoverage level never yields a wider interval at any test
point. -/
theorem C4_width_antitone_in_alpha (b : Model) (T : List (ℚ × ℚ))
    (name : String) (alpha1 alpha2 : ℚ) (k : Nat) (rp : String) (x : ℚ)
    (meth : Method) (hp : parseMethod name = some meth)
    (h1 : 0 < alpha1) (h12 : alpha1 < alpha2) (h2 : alpha2 < 1)
    (hk : meth.isCV = true → 2 ≤ k ∧ k ≤ T.length) :
    ∃ lo1 hi1 lo2 hi2,
      predictInterval b name alpha1 k rp T x = some (lo1, hi1)
      ∧ predictInterval b name alpha2 k rp T x = some (lo2, hi2)
      ∧ hi2 - lo2 ≤ hi1 - lo1 := by
  have ha1 : 0 < alpha1 ∧ alpha1 < 1 := ⟨h1, by linarith⟩
  have ha2 : 0 < alpha2 ∧ alpha2 < 1 := ⟨by linarith, h2⟩
  have hrun1 := runFitPredict_single b name alpha1 k rp T x meth hp ha1 hk
  have hrun2 := runFitPredict_single b name alpha2 k rp T x meth hp ha2 hk
  have hclass : (meth = Method.jackknife ∨ meth = Method.cv)
      ∨ (meth = Method.jackknife_plus ∨ meth = Method.cv_plus)
      ∨ (meth = Method.jackknife_minmax ∨ meth = Method.cv_minmax) := by
    cases meth <;> simp
  rcases hclass with hm | hm | hm
  · have hrow1 := predictRow_base_eq b name alpha1 k rp
      (fitFolds b T (methodFolds meth T.length k)) meth x hm
    have hrow2 := predictRow_base_eq b name alpha2 k rp
      (fitFolds b T (methodFolds meth T.length k)) meth x hm
    have hq := quantile_mono
      ((fitFolds b T (methodFolds meth T.length k)).pointPreds.map
        (fun pr => pr.2)) (1 - alpha2) (1 - alpha1) (by linarith) (by linarith)
    refine ⟨_, _, _, _,
      predictInterval_eq _ _ _ _ _ _ _ _ _ _ (by rw [hrun1, hrow1]),
      predictInterval_eq _ _ _ _ _ _ _ _ _ _ (by rw [hrun2, hrow2]), ?_⟩
    linarith
  · have hrow1 := predictRow_plus_eq b name alpha1 k rp
      (fitFolds b T (methodFolds meth T.length k)) meth x hm
    have hrow2 := predictRow_plus_eq b name alpha2 k rp
      (fitFolds b T (methodFolds meth T.length k)) meth x hm
    have hlo := quantile_mono
      ((fitFolds b T (methodFolds meth T.length k)).pointPreds.map
        (fun pr => pr.1 x - pr.2)) alpha1 alpha2 (by linarith) (by linarith)
    have hhi := quantile_mono
      ((fitFolds b T (methodFolds meth T.length k)).pointPreds.map
        (fun pr => pr.1 x + pr.2)) (1 - alpha2) (1 - alpha1)
      (by linarith) (by linarith)
    refine ⟨_, _, _, _,
      predictInterval_eq _ _ _ _ _ _ _ _ _ _ (by rw [hrun1, hrow1]),
      predictInterval_eq _ _ _ _ _ _ _ _ _ _ (by rw [hrun2, hrow2]), ?_⟩
    linarith
  · have hrow1 := predictRow_minmax_eq b name alpha1 k rp
      (fitFolds b T (methodFolds meth T.length k)) meth x hm
    have hrow2 := predictRow_minmax_eq b name alpha2 k rp
      (fitFolds b T (methodFolds meth T.length k)) meth x hm
    refine ⟨_, _, _, _,
      predictInterval_eq _ _ _ _ _ _ _ _ _ _ (by rw [hrun1, hrow1]),
      predictInterval_eq _ _ _ _ _ _ _ _ _ _ (by rw [hrun2, hrow2]), ?_⟩
    exact le_refl _

/-- C4 witness: the jackknife method at `alpha = 1/4 < 1/2`. -/
theorem C4_width_antitone_in_alpha_witness :
    ∃ lo1 hi1 lo2 hi2,
      predictInterval bZero "jackknife" (1 / 4) 5 "single" TW 0
        = some (lo1, hi1)
      ∧ predictInterval bZero "jackknife" (1 / 2) 5 "single" TW 0
        = some (lo2, hi2)
      ∧ hi2 - lo2 ≤ hi1 - lo1 :=
  C4_width_antitone_in_alpha bZero TW "jackknife" (1 / 4) (1 / 2) 5 "single"
    0 Method.jackknife rfl (by norm_num) (by norm_num) (by norm_num)
    (fun h => Bool.noConfusion h)

/-- C5: with `n_splits = n_samples`, each cv-family method computes exactly
the same nonconformity scores as the corresponding jackknife-family method
on the same data (here proved as exact list equality over the rationals,
which is stronger than equality within floating tolerance). -/
theorem C5_cv_nsamples_eq_jackknife (b : Model) (T : List (ℚ × ℚ))
    (alpha : ℚ) (cname jname : String)
    (hpair : (cname = "cv" ∧ jname = "jackknife")
      ∨ (cname = "cv_plus" ∧ jname = "jackknife_plus")
      ∨ (cname = "cv_minmax" ∧ jname = "jackknife_minmax"))
    (ha : 0 < alpha ∧ alpha < 1) (hn : 2 ≤ T.length) :
    scoresOf b cname alpha T.length T = scoresOf b jname alpha T.length T := by
  have hfolds : foldsCV T.length T.length = foldsLOO T.length :=
    foldsCV_self T.length (by omega)
  rcases hpair with ⟨rfl, rfl⟩ | ⟨rfl, rfl⟩ | ⟨rfl, rfl⟩
  · rw [scoresOf_eq b "cv" alpha T.length T Method.cv rfl ha
        (fun _ => ⟨hn, le_refl _⟩),
      scoresOf_eq b "jackknife" alpha T.length T Method.jackknife rfl ha
        (fun h => Bool.noConfusion h)]
    have h1 : methodFolds Method.cv T.length T.length = foldsLOO T.length :=
      hfolds
    rw [h1]
    rfl
  · rw [scoresOf_eq b "cv_plus" alpha T.length T Method.cv_plus rfl ha
        (fun _ => ⟨hn, le_refl _⟩),
      scoresOf_eq b "jackknife_plus" alpha T.length T Method.jackknife_plus
        rfl ha (fun h => Bool.noConfusion h)]
    have h1 : methodFolds Method.cv_plus T.length T.length
        = foldsLOO T.length := hfolds
    rw [h1]
    rfl
  · rw [scoresOf_eq b "cv_minmax" alpha T.length T Method.cv_minmax rfl ha
        (fun _ => ⟨hn, le_refl _⟩),
      scoresOf_eq b "jackknife_minmax" alpha T.length T
        Method.jackknife_minmax rfl ha (fun h => Bool.noConfusion h)]
    have h1 : methodFolds Method.cv_minmax T.length T.length
        = foldsLOO T.length := hfolds
    rw [h1]
    rfl

/-- C5 witness: cv with `n_splits = 2` on two points matches jackknife. -/
theorem C5_cv_nsamples_eq_jackknife_witness :
    scoresOf bZero "cv" (1 / 2) TW.length TW
      = scoresOf bZero "jackknife" (1 / 2) TW.length TW :=
  C5_cv_nsamples_eq_jackknife bZero TW (1 / 2) "cv" "jackknife"
    (Or.inl ⟨rfl, rfl⟩) ⟨by norm_num, by norm_num⟩ (le_refl 2)
